import Mathlib

/-!
Verification of the trading-bot backtest core (`backtest/engine.py`,
`backtest/metrics.py`, `core/indicators.py`, `data/models.py`).

Shallow embedding conventions:
* Python floats are modelled as exact rationals (ℚ); float square roots
  (used only inside the Sharpe ratio) are modelled by an abstract
  function argument `sqrtFn : ℚ → ℚ`, so every theorem below holds for
  any model of floating-point `** 0.5`.
* `datetime` timestamps are modelled as naturals (only their ordering
  and equality are used by the engine).
* Python dicts keyed by symbol are modelled as association lists in
  insertion order; `sfind` models `d[k]` / `k in d` / `d.get(k, ...)`.
* Python truthiness on `Optional[float]` (`None` and `0.0` are falsy)
  is modelled explicitly where the source relies on it.
-/

set_option autoImplicit false
set_option maxHeartbeats 1000000
set_option maxRecDepth 8000

namespace TradingBot

attribute [local semireducible] Rat.add Rat.mul Rat.sub Rat.inv Rat.ofScientific

/-- Python `int(x)` truncates toward zero (`data`-flow: only applied to
nonnegative quantities in the engine, where it agrees with `floor`). -/
def pyInt (q : ℚ) : ℤ := if 0 ≤ q then ⌊q⌋ else ⌈q⌉

/-- Mirror of `data/models.py` `Action`. -/
inductive Action where
  | buy
  | sell
  | hold
deriving DecidableEq, Repr

/-- Mirror of `data/models.py` `Bar` (the Python field `open` is spelled
`open_` because `open` is a Lean keyword). -/
structure Bar where
  timestamp : ℕ
  open_ : ℚ
  high : ℚ
  low : ℚ
  close : ℚ
  volume : ℕ
deriving DecidableEq, Repr

/-- Mirror of `data/models.py` `Signal`. -/
structure Signal where
  symbol : String
  action : Action
  strategy : String
  entry_price : ℚ
  stop_loss : Option ℚ
  take_profit : Option ℚ
  strength : ℚ
  reason : String
  timestamp : ℕ
deriving DecidableEq, Repr

/-- Mirror of `data/models.py` `Position`. -/
structure Position where
  symbol : String
  shares : ℤ
  entry_price : ℚ
  entry_time : ℕ
  stop_loss : Option ℚ
  take_profit : Option ℚ
  strategy : String
deriving DecidableEq, Repr

/-- Mirror of `data/models.py` `TradeResult`. -/
structure TradeResult where
  symbol : String
  strategy : String
  entry_price : ℚ
  entry_time : ℕ
  exit_price : ℚ
  exit_time : ℕ
  shares : ℤ
  pnl : ℚ
  pnl_pct : ℚ
  reason : String
deriving DecidableEq, Repr

/-- Mirror of `backtest/engine.py` `BacktestConfig`. -/
structure BacktestConfig where
  initial_capital : ℚ
  position_size_pct : ℚ
  max_positions : ℤ
  commission_per_trade : ℚ
deriving DecidableEq, Repr

/-- Mirror of `backtest/metrics.py` `BacktestMetrics`.  The Python field
`profit_factor` can be `float('inf')`, modelled as `none`. -/
structure BacktestMetrics where
  total_trades : ℕ
  winning_trades : ℕ
  losing_trades : ℕ
  win_rate : ℚ
  profit_factor : Option ℚ
  total_pnl : ℚ
  avg_win : ℚ
  avg_loss : ℚ
  max_drawdown : ℚ
  sharpe_ratio : ℚ
deriving DecidableEq, Repr

/-! ## Indicator library: RSI (`core/indicators.py`, `Indicators.rsi`) -/

/-- The list `changes = [closes[i] - closes[i-1] for i in range(1, len(closes))]`. -/
def rsi_changes (closes : List ℚ) : List ℚ :=
  List.zipWith (fun a b => a - b) closes.tail closes

/-- The list `gains = [max(0, c) for c in changes]`. -/
def rsi_gains (closes : List ℚ) : List ℚ :=
  (rsi_changes closes).map (fun c => max 0 c)

/-- The list `losses = [abs(min(0, c)) for c in changes]`. -/
def rsi_losses (closes : List ℚ) : List ℚ :=
  (rsi_changes closes).map (fun c => |min 0 c|)

/-- One iteration of the Wilder-smoothing loop of `Indicators.rsi`:
`avg = (avg * (period - 1) + new) / period` for the gain and loss averages. -/
def wilder_step (period : ℕ) (a : ℚ × ℚ) (gl : ℚ × ℚ) : ℚ × ℚ :=
  ((a.1 * ((period : ℚ) - 1) + gl.1) / (period : ℚ),
   (a.2 * ((period : ℚ) - 1) + gl.2) / (period : ℚ))

/-- The pair `(avg_gain, avg_loss)` computed by `Indicators.rsi`: simple
means of the first `period` gains/losses, then Wilder smoothing over the
remaining ones. -/
def wilder_avgs (closes : List ℚ) (period : ℕ) : ℚ × ℚ :=
  (((rsi_gains closes).drop period).zip ((rsi_losses closes).drop period)).foldl
    (wilder_step period)
    (((rsi_gains closes).take period).sum / (period : ℚ),
     ((rsi_losses closes).take period).sum / (period : ℚ))

/-- Mirror of `Indicators.rsi` (`core/indicators.py` lines 58-86). -/
def rsi (closes : List ℚ) (period : ℕ := 14) : Option ℚ :=
  if closes.length < period + 1 then none
  else if (wilder_avgs closes period).2 = 0 then some 100
  else some (100 - 100 / (1 + (wilder_avgs closes period).1 / (wilder_avgs closes period).2))

/-! ## Metrics module (`backtest/metrics.py`) -/

/-- Mirror of the local `winners = [t for t in trades if t.pnl > 0]`. -/
def metrics_winners (trades : List TradeResult) : List TradeResult :=
  trades.filter (fun t => 0 < t.pnl)

/-- Mirror of the local `losers = [t for t in trades if t.pnl <= 0]`. -/
def metrics_losers (trades : List TradeResult) : List TradeResult :=
  trades.filter (fun t => t.pnl ≤ 0)

/-- Mirror of the local `gross_profit = sum(t.pnl for t in winners)`. -/
def gross_profit (trades : List TradeResult) : ℚ :=
  ((metrics_winners trades).map (fun t => t.pnl)).sum

/-- Mirror of the local `gross_loss = abs(sum(t.pnl for t in losers))`. -/
def gross_loss (trades : List TradeResult) : ℚ :=
  |((metrics_losers trades).map (fun t => t.pnl)).sum|

/-- Mirror of `calculate_max_drawdown` (`backtest/metrics.py` lines 106-122). -/
def calculate_max_drawdown (equity_curve : List ℚ) : ℚ :=
  match equity_curve with
  | [] => 0
  | e0 :: _ =>
    (equity_curve.foldl
      (fun pd e =>
        let peak := if pd.1 < e then e else pd.1
        (peak, if 0 < peak then max pd.2 ((peak - e) / peak * 100) else pd.2))
      (e0, (0 : ℚ))).2

/-- Mirror of `calculate_sharpe_ratio` (`backtest/metrics.py` lines 125-168);
the float exponentiation `** 0.5` is modelled by `sqrtFn`. -/
def calculate_sharpe_ratio (sqrtFn : ℚ → ℚ) (equity_curve : List ℚ)
    (risk_free_rate : ℚ) (periods_per_year : ℕ) : ℚ :=
  if equity_curve.length < 2 then 0
  else
    let returns := (equity_curve.zip equity_curve.tail).filterMap
      (fun pc => if 0 < pc.1 then some ((pc.2 - pc.1) / pc.1) else none)
    if returns = [] then 0
    else
      let mean_return := returns.sum / (returns.length : ℚ)
      if returns.length < 2 then 0
      else
        let variance := (returns.map (fun r => (r - mean_return) ^ 2)).sum /
          ((returns.length : ℚ) - 1)
        let std_return := sqrtFn variance
        if std_return = 0 then 0
        else
          (mean_return * (periods_per_year : ℚ) - risk_free_rate) /
            (std_return * sqrtFn (periods_per_year : ℚ))

/-- Mirror of `calculate_metrics` (`backtest/metrics.py` lines 33-103).
The Python `equity_curve` parameter is `Optional`; `None` is modelled by
the empty list, which has identical truthiness in every use site. -/
def calculate_metrics (sqrtFn : ℚ → ℚ) (trades : List TradeResult)
    (equity_curve : List ℚ) (initial_capital : ℚ) : BacktestMetrics :=
  if trades = [] then
    { total_trades := 0, winning_trades := 0, losing_trades := 0, win_rate := 0,
      profit_factor := some 0, total_pnl := 0, avg_win := 0, avg_loss := 0,
      max_drawdown := 0, sharpe_ratio := 0 }
  else
    { total_trades := trades.length
      winning_trades := (metrics_winners trades).length
      losing_trades := (metrics_losers trades).length
      win_rate := (((metrics_winners trades).length : ℚ) / (trades.length : ℚ)) * 100
      profit_factor :=
        if 0 < gross_loss trades then some (gross_profit trades / gross_loss trades)
        else none
      total_pnl := (trades.map (fun t => t.pnl)).sum
      avg_win :=
        if 0 < (metrics_winners trades).length then
          gross_profit trades / ((metrics_winners trades).length : ℚ)
        else 0
      avg_loss :=
        if 0 < (metrics_losers trades).length then
          gross_loss trades / ((metrics_losers trades).length : ℚ)
        else 0
      max_drawdown :=
        if 1 < equity_curve.length then calculate_max_drawdown equity_curve else 0
      sharpe_ratio :=
        if 1 < equity_curve.length then
          calculate_sharpe_ratio sqrtFn equity_curve 0 (252 * 78)
        else 0 }

/-! ## Backtest engine (`backtest/engine.py`) -/

/-- Lookup in an insertion-ordered association list; models Python dict
indexing, `k in d`, and `d.get(k, default)` (composed with `Option.getD`). -/
def sfind {α : Type} (l : List (String × α)) (k : String) : Option α :=
  match l with
  | [] => none
  | (k', v) :: rest => if k' = k then some v else sfind rest k

/-- A strategy: the `BaseStrategy` contract (`strategies/base.py`).  Its
mutable per-symbol state dict is modelled by an abstract state type `σ`
threaded through `on_bar`; `BaseStrategy.reset` returns it to `init`. -/
structure Strategy (σ : Type) where
  name : String
  init : σ
  on_bar : σ → String → Bar → List Bar → Bool → σ × Option Signal

/-- The engine's mutable state (`BacktestEngine.__init__`): available
capital, the open-position dict, the trade list, the equity curve, and
the strategy's mutable state. -/
structure EState (σ : Type) where
  available_capital : ℚ
  positions : List (String × Position)
  trades : List TradeResult
  equity_curve : List ℚ
  strat_state : σ

/-- Mirror of `BacktestEngine._get_bar_at_timestamp`. -/
def get_bar_at_timestamp (bars : List Bar) (t : ℕ) : Option Bar :=
  match bars with
  | [] => none
  | b :: rest => if b.timestamp = t then some b else get_bar_at_timestamp rest t

/-- Mirror of `BacktestEngine._get_history_up_to`. -/
def get_history_up_to (bars : List Bar) (t : ℕ) : List Bar :=
  bars.filter (fun b => b.timestamp ≤ t)

/-- The bool `stop_hit = position.stop_loss and bar.low <= position.stop_loss`
(engine line 156).  Python truthiness: `None` and `0.0` are falsy, so a
stop level of exactly `0` never counts as hit. -/
def stop_hit_b (bar : Bar) (position : Position) : Bool :=
  match position.stop_loss with
  | none => false
  | some s => decide (s ≠ 0) && decide (bar.low ≤ s)

/-- The bool `tp_hit = position.take_profit and bar.high >= position.take_profit`
(engine line 157), with the same truthiness convention. -/
def tp_hit_b (bar : Bar) (position : Position) : Bool :=
  match position.take_profit with
  | none => false
  | some v => decide (v ≠ 0) && decide (v ≤ bar.high)

/-- Mirror of `BacktestEngine._determine_exit_price` (engine lines 172-213).
The `getD 0` defaults model Python attribute reads that are only reached
when the corresponding hit flag is true (hence the option is `some`). -/
def determine_exit_price (bar : Bar) (position : Position)
    (stop_hit tp_hit : Bool) : ℚ × String :=
  if stop_hit && decide (bar.open_ < position.stop_loss.getD 0) then
    (bar.open_, "stop_loss_gap")
  else if tp_hit && decide (position.take_profit.getD 0 < bar.open_) then
    (bar.open_, "take_profit_gap")
  else if stop_hit && tp_hit then
    if |bar.open_ - position.stop_loss.getD 0| < |bar.open_ - position.take_profit.getD 0| then
      (position.stop_loss.getD 0, "stop_loss")
    else
      (position.take_profit.getD 0, "take_profit")
  else if stop_hit then (position.stop_loss.getD 0, "stop_loss")
  else if tp_hit then (position.take_profit.getD 0, "take_profit")
  else (bar.close, "unknown")

/-- Mirror of `BacktestEngine._open_position` (engine lines 215-243). -/
def open_position {σ : Type} (cfg : BacktestConfig) (st : EState σ)
    (symbol : String) (bar : Bar) (signal : Signal) : EState σ :=
  let position_value := st.available_capital * (cfg.position_size_pct / 100)
  let shares := pyInt (position_value / bar.close)
  if shares ≤ 0 then st
  else
    let cost := (shares : ℚ) * bar.close + cfg.commission_per_trade
    if st.available_capital < cost then st
    else
      { st with
        available_capital := st.available_capital - cost
        positions := st.positions ++ [(symbol,
          { symbol := symbol, shares := shares, entry_price := bar.close,
            entry_time := bar.timestamp, stop_loss := signal.stop_loss,
            take_profit := signal.take_profit, strategy := signal.strategy })] }

/-- Mirror of `BacktestEngine._close_position` (engine lines 245-284). -/
def close_position {σ : Type} (cfg : BacktestConfig) (st : EState σ)
    (symbol : String) (exit_price : ℚ) (exit_time : ℕ) (reason : String) :
    EState σ :=
  match sfind st.positions symbol with
  | none => st
  | some position =>
    { st with
      available_capital := st.available_capital +
        (exit_price * (position.shares : ℚ) - cfg.commission_per_trade)
      trades := st.trades ++ [{
        symbol := symbol
        strategy := position.strategy
        entry_price := position.entry_price
        entry_time := position.entry_time
        exit_price := exit_price
        exit_time := exit_time
        shares := position.shares
        pnl := (exit_price - position.entry_price) * (position.shares : ℚ) -
          cfg.commission_per_trade
        pnl_pct := ((exit_price - position.entry_price) / position.entry_price) * 100
        reason := reason }]
      positions := st.positions.eraseP (fun q => q.1 = symbol) }

/-- Mirror of `BacktestEngine._check_entry` (engine lines 133-141). -/
def check_entry {σ : Type} (S : Strategy σ) (cfg : BacktestConfig)
    (st : EState σ) (symbol : String) (bar : Bar) (history : List Bar) :
    EState σ :=
  if cfg.max_positions ≤ (st.positions.length : ℤ) then st
  else
    let r := S.on_bar st.strat_state symbol bar history false
    let st' : EState σ := { st with strat_state := r.1 }
    match r.2 with
    | some signal =>
      if signal.action = Action.buy then open_position cfg st' symbol bar signal
      else st'
    | none => st'

/-- Mirror of `BacktestEngine._check_exit_conditions` (engine lines 143-170). -/
def check_exit_conditions {σ : Type} (S : Strategy σ) (cfg : BacktestConfig)
    (st : EState σ) (symbol : String) (bar : Bar) (all_bars : List Bar) :
    EState σ :=
  match sfind st.positions symbol with
  | none => st
  | some position =>
    let stop_hit := stop_hit_b bar position
    let tp_hit := tp_hit_b bar position
    if stop_hit || tp_hit then
      let er := determine_exit_price bar position stop_hit tp_hit
      close_position cfg st symbol er.1 bar.timestamp er.2
    else
      let history := get_history_up_to all_bars bar.timestamp
      let r := S.on_bar st.strat_state symbol bar history true
      let st' : EState σ := { st with strat_state := r.1 }
      match r.2 with
      | some signal =>
        if signal.action = Action.sell then
          close_position cfg st' symbol bar.close bar.timestamp
            (if signal.reason = "" then "signal" else signal.reason)
        else st'
      | none => st'

/-- Mirror of `BacktestEngine._calculate_equity` (engine lines 286-295). -/
def calculate_equity {σ : Type} (st : EState σ)
    (current_prices : List (String × ℚ)) : ℚ :=
  st.available_capital +
    (st.positions.map
      (fun q => ((sfind current_prices q.2.symbol).getD q.2.entry_price) *
        (q.2.shares : ℚ))).sum

/-- One iteration of the first pass of `run` (engine lines 78-86): collect
the bar's close into `current_prices` and check exit conditions for open
positions. -/
def exit_pass_step {σ : Type} (S : Strategy σ) (cfg : BacktestConfig)
    (map : List (String × List Bar)) (t : ℕ)
    (acc : List (String × ℚ) × EState σ) (symbol : String) :
    List (String × ℚ) × EState σ :=
  match get_bar_at_timestamp ((sfind map symbol).getD []) t with
  | none => acc
  | some bar =>
    (acc.1 ++ [(symbol, bar.close)],
     if (sfind acc.2.positions symbol).isSome then
       check_exit_conditions S cfg acc.2 symbol bar ((sfind map symbol).getD [])
     else acc.2)

/-- The first pass of `run` over all symbols at one timestamp. -/
def exit_pass {σ : Type} (S : Strategy σ) (cfg : BacktestConfig)
    (map : List (String × List Bar)) (t : ℕ) (st : EState σ)
    (symbols : List String) : List (String × ℚ) × EState σ :=
  symbols.foldl (exit_pass_step S cfg map t) ([], st)

/-- One iteration of the second pass of `run` (engine lines 89-95): try a
new entry for symbols with a bar at `t` and no open position. -/
def entry_pass_step {σ : Type} (S : Strategy σ) (cfg : BacktestConfig)
    (map : List (String × List Bar)) (t : ℕ) (st : EState σ)
    (symbol : String) : EState σ :=
  match get_bar_at_timestamp ((sfind map symbol).getD []) t with
  | none => st
  | some bar =>
    if (sfind st.positions symbol).isSome then st
    else
      if 0 < (get_history_up_to ((sfind map symbol).getD []) t).length then
        check_entry S cfg st symbol bar (get_history_up_to ((sfind map symbol).getD []) t)
      else st

/-- The second pass of `run` over all symbols at one timestamp. -/
def entry_pass {σ : Type} (S : Strategy σ) (cfg : BacktestConfig)
    (map : List (String × List Bar)) (t : ℕ) (st : EState σ)
    (symbols : List String) : EState σ :=
  symbols.foldl (entry_pass_step S cfg map t) st

/-- The engine state after both passes at one timestamp, just before the
equity point is recorded. -/
def after_passes {σ : Type} (S : Strategy σ) (cfg : BacktestConfig)
    (symbols : List String) (map : List (String × List Bar)) (st : EState σ)
    (t : ℕ) : EState σ :=
  entry_pass S cfg map t (exit_pass S cfg map t st symbols).2 symbols

/-- The body of the per-timestamp loop of `run` (engine lines 74-99):
exit pass, entry pass, then append the current equity. -/
def process_timestamp {σ : Type} (S : Strategy σ) (cfg : BacktestConfig)
    (symbols : List String) (map : List (String × List Bar)) (st : EState σ)
    (t : ℕ) : EState σ :=
  { after_passes S cfg symbols map st t with
    equity_curve := (after_passes S cfg symbols map st t).equity_curve ++
      [calculate_equity (after_passes S cfg symbols map st t)
        (exit_pass S cfg map t st symbols).1] }

/-- The per-timestamp loop of `run` over the simulation clock. -/
def run_timestamps {σ : Type} (S : Strategy σ) (cfg : BacktestConfig)
    (symbols : List String) (map : List (String × List Bar)) (st : EState σ)
    (ts : List ℕ) : EState σ :=
  ts.foldl (process_timestamp S cfg symbols map) st

/-- The final loop of `run` (engine lines 101-105) over a snapshot of the
open-position keys: force-close each at its symbol's last bar, provided
the symbol has a nonempty bar list. -/
def close_remaining_aux {σ : Type} (cfg : BacktestConfig)
    (map : List (String × List Bar)) (keys : List String) (st : EState σ) :
    EState σ :=
  match keys with
  | [] => st
  | k :: ks =>
    close_remaining_aux cfg map ks
      (match sfind map k with
       | none => st
       | some bars =>
         match bars.getLast? with
         | none => st
         | some last_bar =>
           close_position cfg st k last_bar.close last_bar.timestamp "end_of_test")

/-- Close any remaining positions at the last known price (engine lines 101-105). -/
def close_remaining {σ : Type} (cfg : BacktestConfig)
    (map : List (String × List Bar)) (st : EState σ) : EState σ :=
  close_remaining_aux cfg map (st.positions.map (fun q => q.1)) st

/-- The sorted set of distinct timestamps across all symbols' bars
(engine lines 66-71): `sorted(set(...))`. -/
def sorted_timestamps (map : List (String × List Bar)) : List ℕ :=
  (List.insertionSort (fun a b => a ≤ b)
    ((map.map (fun kv => kv.2.map (fun b => b.timestamp))).flatten)).dedup

/-- Mirror of `BacktestEngine.reset` (engine lines 44-50): capital back to
`initial_capital`, empty positions/trades/equity curve, strategy reset. -/
def reset_state {σ : Type} (S : Strategy σ) (cfg : BacktestConfig) : EState σ :=
  { available_capital := cfg.initial_capital, positions := [], trades := [],
    equity_curve := [], strat_state := S.init }

/-- Mirror of `backtest/engine.py` `BacktestResult`. -/
structure BacktestResult where
  strategy_name : String
  config : BacktestConfig
  trades : List TradeResult
  equity_curve : List ℚ
  metrics : BacktestMetrics
deriving DecidableEq, Repr

/-- Mirror of `BacktestEngine.run` (engine lines 52-120).  `st0` is the
engine state left over from any previous activity; `run` begins with
`self.reset()`, so it is never read.  Returns the final engine state
together with the `BacktestResult`. -/
def engine_run {σ : Type} (S : Strategy σ) (cfg : BacktestConfig)
    (sqrtFn : ℚ → ℚ) (st0 : EState σ) (symbols : List String)
    (map : List (String × List Bar)) : EState σ × BacktestResult :=
  let st1 := run_timestamps S cfg symbols map (reset_state S cfg)
    (sorted_timestamps map)
  let st2 := close_remaining cfg map st1
  (st2,
   { strategy_name := S.name
     config := cfg
     trades := st2.trades
     equity_curve := st2.equity_curve
     metrics := calculate_metrics sqrtFn st2.trades st2.equity_curve
       cfg.initial_capital })

/-! ## Claim C7: metrics on an empty trade list -/

/-- Claim C7: `computeMetrics` applied to an empty trade list (for any
equity curve and initial capital) returns an all-zero metrics record —
every field is zero (`profit_factor` is the exact value `0`, not the
infinity sentinel) — performing no division and raising no exception
(the embedding is a total function). -/
theorem claim_C7 (sqrtFn : ℚ → ℚ) (equity_curve : List ℚ) (initial_capital : ℚ) :
    calculate_metrics sqrtFn [] equity_curve initial_capital =
      { total_trades := 0, winning_trades := 0, losing_trades := 0, win_rate := 0,
        profit_factor := some 0, total_pnl := 0, avg_win := 0, avg_loss := 0,
        max_drawdown := 0, sharpe_ratio := 0 } := rfl

/-! ## Claim C10: break-even trades count as losers -/

/-- Claim C10: in metrics computation over a non-empty trade list, a trade
is a winner only when its pnl is strictly positive; a trade with pnl
exactly `0` is counted among the losing trades.  Appending a break-even
trade `t0` leaves the winner count unchanged, increments the losing-trade
count, enters the average-loss denominator, and (weakly, and strictly when
there is at least one winner) reduces the win rate. -/
theorem claim_C10 (sqrtFn : ℚ → ℚ) (trades : List TradeResult)
    (equity_curve : List ℚ) (initial_capital : ℚ) (t0 : TradeResult)
    (hne : trades ≠ []) (h0 : t0.pnl = 0) :
    (calculate_metrics sqrtFn trades equity_curve initial_capital).winning_trades
      = (trades.filter (fun t => 0 < t.pnl)).length
    ∧ (calculate_metrics sqrtFn trades equity_curve initial_capital).losing_trades
      = (trades.filter (fun t => t.pnl ≤ 0)).length
    ∧ (calculate_metrics sqrtFn trades equity_curve initial_capital).win_rate
      = (((trades.filter (fun t => 0 < t.pnl)).length : ℚ) / (trades.length : ℚ)) * 100
    ∧ (0 < (trades.filter (fun t => t.pnl ≤ 0)).length →
        (calculate_metrics sqrtFn trades equity_curve initial_capital).avg_loss
          = gross_loss trades / ((trades.filter (fun t => t.pnl ≤ 0)).length : ℚ))
    ∧ (calculate_metrics sqrtFn (trades ++ [t0]) equity_curve initial_capital).winning_trades
      = (calculate_metrics sqrtFn trades equity_curve initial_capital).winning_trades
    ∧ (calculate_metrics sqrtFn (trades ++ [t0]) equity_curve initial_capital).losing_trades
      = (calculate_metrics sqrtFn trades equity_curve initial_capital).losing_trades + 1
    ∧ (calculate_metrics sqrtFn (trades ++ [t0]) equity_curve initial_capital).avg_loss
      = gross_loss trades / (((trades.filter (fun t => t.pnl ≤ 0)).length : ℚ) + 1)
    ∧ (calculate_metrics sqrtFn (trades ++ [t0]) equity_curve initial_capital).win_rate
      ≤ (calculate_metrics sqrtFn trades equity_curve initial_capital).win_rate
    ∧ (0 < (trades.filter (fun t => 0 < t.pnl)).length →
        (calculate_metrics sqrtFn (trades ++ [t0]) equity_curve initial_capital).win_rate
          < (calculate_metrics sqrtFn trades equity_curve initial_capital).win_rate) := by
  have hne' : trades ++ [t0] ≠ [] := by simp
  have hfw : (List.filter (fun t => decide (0 < t.pnl)) [t0]) = [] := by
    simp [h0]
  have hfl : (List.filter (fun t => decide (t.pnl ≤ 0)) [t0]) = [t0] := by
    simp [h0]
  have hN : (0 : ℚ) < (trades.length : ℚ) := by
    exact_mod_cast List.length_pos.mpr hne
  have hgl : gross_loss (trades ++ [t0]) = gross_loss trades := by
    simp [gross_loss, metrics_losers, List.filter_append, hfl, h0]
  refine ⟨?_, ?_, ?_, ?_, ?_, ?_, ?_, ?_, ?_⟩
  · simp [calculate_metrics, if_neg hne, metrics_winners]
  · simp [calculate_metrics, if_neg hne, metrics_losers]
  · simp [calculate_metrics, if_neg hne, metrics_winners]
  · intro hl
    simp [calculate_metrics, if_neg hne, metrics_losers, gross_loss, if_pos hl]
  · simp [calculate_metrics, if_neg hne, if_neg hne', metrics_winners,
      List.filter_append, hfw]
  · simp [calculate_metrics, if_neg hne, if_neg hne', metrics_losers,
      List.filter_append, hfl]
  · have hl' : 0 < (metrics_losers (trades ++ [t0])).length := by
      simp [metrics_losers, List.filter_append, hfl]
    simp only [calculate_metrics, if_neg hne', if_pos hl', hgl, metrics_losers,
      List.filter_append, hfl]
    simp [List.length_append]
  · simp only [calculate_metrics, if_neg hne, if_neg hne', metrics_winners,
      List.filter_append, hfw, List.append_nil, List.length_append,
      List.length_singleton]
    have hle : ((trades.filter (fun t => decide (0 < t.pnl))).length : ℚ) /
        ((trades.length : ℚ) + 1)
        ≤ ((trades.filter (fun t => decide (0 < t.pnl))).length : ℚ) /
          (trades.length : ℚ) := by
      apply div_le_div_of_nonneg_left (by positivity) hN (by linarith)
    have := mul_le_mul_of_nonneg_right hle (by norm_num : (0:ℚ) ≤ 100)
    push_cast at this ⊢
    convert this using 2 <;> push_cast <;> ring
  · intro hw
    simp only [calculate_metrics, if_neg hne, if_neg hne', metrics_winners,
      List.filter_append, hfw, List.append_nil, List.length_append,
      List.length_singleton]
    have hw' : (0 : ℚ) < ((trades.filter (fun t => decide (0 < t.pnl))).length : ℚ) := by
      exact_mod_cast hw
    have hlt : ((trades.filter (fun t => decide (0 < t.pnl))).length : ℚ) /
        ((trades.length : ℚ) + 1)
        < ((trades.filter (fun t => decide (0 < t.pnl))).length : ℚ) /
          (trades.length : ℚ) := by
      apply div_lt_div_of_pos_left hw' hN (by linarith)
    have := mul_lt_mul_of_pos_right hlt (by norm_num : (0:ℚ) < 100)
    push_cast at this ⊢
    convert this using 2 <;> push_cast <;> ring

/-- A winning trade used by the C10 witness. -/
def w10_win : TradeResult :=
  { symbol := "A", strategy := "s", entry_price := 1, entry_time := 0,
    exit_price := 2, exit_time := 1, shares := 1, pnl := 1, pnl_pct := 100,
    reason := "take_profit" }

/-- A break-even trade used by the C10 witness. -/
def w10_breakeven : TradeResult :=
  { symbol := "A", strategy := "s", entry_price := 1, entry_time := 0,
    exit_price := 1, exit_time := 1, shares := 1, pnl := 0, pnl_pct := 0,
    reason := "signal" }

/-- Witness for C10 at a concrete input: one winning trade plus one
break-even trade. -/
theorem claim_C10_witness :
    (calculate_metrics (fun q => q) [w10_win] [] 100000).winning_trades
      = ([w10_win].filter (fun t => 0 < t.pnl)).length :=
  (claim_C10 (fun q => q) [w10_win] [] 100000 w10_breakeven
    (by decide) rfl).1

/-! ## Claim C6: RSI bounds and the zero-average-loss case -/

lemma rsi_gains_nonneg (closes : List ℚ) : ∀ x ∈ rsi_gains closes, 0 ≤ x := by
  intro x hx
  simp only [rsi_gains, List.mem_map] at hx
  obtain ⟨c, _, rfl⟩ := hx
  exact le_max_left 0 c

lemma rsi_losses_nonneg (closes : List ℚ) : ∀ x ∈ rsi_losses closes, 0 ≤ x := by
  intro x hx
  simp only [rsi_losses, List.mem_map] at hx
  obtain ⟨c, _, rfl⟩ := hx
  exact abs_nonneg _

lemma wilder_fold_nonneg (period : ℕ) (hp : 1 ≤ period) :
    ∀ (l : List (ℚ × ℚ)) (a : ℚ × ℚ), (∀ x ∈ l, 0 ≤ x.1 ∧ 0 ≤ x.2) →
      0 ≤ a.1 → 0 ≤ a.2 →
      0 ≤ (l.foldl (wilder_step period) a).1 ∧
        0 ≤ (l.foldl (wilder_step period) a).2 := by
  have hpq : (0:ℚ) ≤ (period:ℚ) - 1 := by
    have : (1:ℚ) ≤ (period:ℚ) := by exact_mod_cast hp
    linarith
  intro l
  induction l with
  | nil => intro a _ h1 h2; exact ⟨h1, h2⟩
  | cons x xs ih =>
    intro a hmem h1 h2
    have hx := hmem x (List.mem_cons_self _ _)
    refine ih _ (fun y hy => hmem y (List.mem_cons_of_mem _ hy)) ?_ ?_
    · exact div_nonneg (add_nonneg (mul_nonneg h1 hpq) hx.1) (Nat.cast_nonneg _)
    · exact div_nonneg (add_nonneg (mul_nonneg h2 hpq) hx.2) (Nat.cast_nonneg _)

lemma wilder_avgs_nonneg (closes : List ℚ) (period : ℕ) (hp : 1 ≤ period) :
    0 ≤ (wilder_avgs closes period).1 ∧ 0 ≤ (wilder_avgs closes period).2 := by
  apply wilder_fold_nonneg period hp
  · intro x hx
    obtain ⟨a, b⟩ := x
    have hz := List.of_mem_zip hx
    exact ⟨rsi_gains_nonneg closes a (List.mem_of_mem_drop hz.1),
      rsi_losses_nonneg closes b (List.mem_of_mem_drop hz.2)⟩
  · exact div_nonneg
      (List.sum_nonneg fun x hx => rsi_gains_nonneg closes x (List.mem_of_mem_take hx))
      (Nat.cast_nonneg _)
  · exact div_nonneg
      (List.sum_nonneg fun x hx => rsi_losses_nonneg closes x (List.mem_of_mem_take hx))
      (Nat.cast_nonneg _)

lemma rsi_changes_pos (closes : List ℚ) (h : closes.Chain' (· < ·)) :
    ∀ c ∈ rsi_changes closes, 0 < c := by
  induction closes with
  | nil => intro c hc; simp [rsi_changes] at hc
  | cons a l ih =>
    cases l with
    | nil => intro c hc; simp [rsi_changes] at hc
    | cons b l' =>
      intro c hc
      rw [List.chain'_cons] at h
      have hrw : rsi_changes (a :: b :: l') = (b - a) :: rsi_changes (b :: l') := rfl
      rw [hrw] at hc
      rcases List.mem_cons.mp hc with h1 | h2
      · subst h1; linarith [h.1]
      · exact ih h.2 c h2

lemma wilder_fold_loss_zero (period : ℕ) :
    ∀ (l : List (ℚ × ℚ)) (a : ℚ × ℚ), (∀ x ∈ l, x.2 = 0) → a.2 = 0 →
      (l.foldl (wilder_step period) a).2 = 0 := by
  intro l
  induction l with
  | nil => intro a _ h2; exact h2
  | cons x xs ih =>
    intro a hmem h2
    refine ih _ (fun y hy => hmem y (List.mem_cons_of_mem _ hy)) ?_
    have hx := hmem x (List.mem_cons_self _ _)
    simp [wilder_step, h2, hx]

lemma wilder_avgs_loss_zero (closes : List ℚ) (period : ℕ)
    (h : ∀ x ∈ rsi_losses closes, x = 0) :
    (wilder_avgs closes period).2 = 0 := by
  apply wilder_fold_loss_zero
  · intro x hx
    exact h x.2 (List.mem_of_mem_drop (List.of_mem_zip
      (show (x.1, x.2) ∈ _ from hx)).2)
  · have : ((rsi_losses closes).take period).sum = 0 :=
      List.sum_eq_zero fun x hx => h x (List.mem_of_mem_take hx)
    simp [this]

/-- Claim C6: for every close series whose RSI is defined (length at least
`period + 1`, with a positive smoothing period), the returned RSI lies in
`[0, 100]`; it equals exactly `100` whenever the Wilder-smoothed average
loss is zero, and in particular every strictly monotonically increasing
close series of sufficient length yields RSI exactly `100`. -/
theorem claim_C6 (closes : List ℚ) (period : ℕ) (hp : 1 ≤ period)
    (hlen : period + 1 ≤ closes.length) :
    (∃ r, rsi closes period = some r ∧ 0 ≤ r ∧ r ≤ 100)
    ∧ ((wilder_avgs closes period).2 = 0 → rsi closes period = some 100)
    ∧ (closes.Chain' (· < ·) → rsi closes period = some 100) := by
  have hnot : ¬ closes.length < period + 1 := by omega
  have havg := wilder_avgs_nonneg closes period hp
  refine ⟨?_, ?_, ?_⟩
  · by_cases hz : (wilder_avgs closes period).2 = 0
    · exact ⟨100, by simp [rsi, hnot, hz], by norm_num, by norm_num⟩
    · have hpos : 0 < (wilder_avgs closes period).2 :=
        lt_of_le_of_ne havg.2 (Ne.symm hz)
      have hrs : 0 ≤ (wilder_avgs closes period).1 / (wilder_avgs closes period).2 :=
        div_nonneg havg.1 havg.2
      refine ⟨100 - 100 / (1 + (wilder_avgs closes period).1 /
        (wilder_avgs closes period).2), by simp [rsi, hnot, hz], ?_, ?_⟩
      · have hd : 100 / (1 + (wilder_avgs closes period).1 /
            (wilder_avgs closes period).2) ≤ 100 :=
          div_le_self (by norm_num) (by linarith)
        linarith
      · have hd : 0 < 100 / (1 + (wilder_avgs closes period).1 /
            (wilder_avgs closes period).2) :=
          div_pos (by norm_num) (by linarith)
        linarith
  · intro hz
    simp [rsi, hnot, hz]
  · intro hchain
    have hz : (wilder_avgs closes period).2 = 0 := by
      apply wilder_avgs_loss_zero
      intro x hx
      simp only [rsi_losses, List.mem_map] at hx
      obtain ⟨c, hc, rfl⟩ := hx
      have := rsi_changes_pos closes hchain c hc
      simp [min_eq_left this.le]
    simp [rsi, hnot, hz]

/-- Witness for C6 at a concrete input: a strictly increasing close
series of length 3 with period 1 gives RSI exactly 100. -/
theorem claim_C6_witness : rsi [1, 2, 3] 1 = some 100 :=
  (claim_C6 [1, 2, 3] 1 (by norm_num) (by norm_num)).2.2
    (by norm_num [List.chain'_cons])

/-! ## Claim C1: exit-price/reason resolution -/

/-- The stop-hit predicate in the words of the claim: the stop is hit when
`stopLoss` is set and `bar.low` is at or below it. -/
def spec_stop_hit (bar : Bar) (position : Position) : Bool :=
  match position.stop_loss with
  | none => false
  | some s => decide (bar.low ≤ s)

/-- The target-hit predicate in the words of the claim: the target is hit
when `takeProfit` is set and `bar.high` is at or above it. -/
def spec_tp_hit (bar : Bar) (position : Position) : Bool :=
  match position.take_profit with
  | none => false
  | some v => decide (v ≤ bar.high)

/-- The exit-price/reason case precedence exactly as the claim states it
(gap through stop, else gap through target, else closer-to-open tie-break,
else the hit level with its reason; the final arm is never reached when a
level was hit). -/
def exit_spec (bar : Bar) (position : Position) : ℚ × String :=
  if spec_stop_hit bar position && decide (bar.open_ < position.stop_loss.getD 0) then
    (bar.open_, "stop_loss_gap")
  else if spec_tp_hit bar position && decide (position.take_profit.getD 0 < bar.open_) then
    (bar.open_, "take_profit_gap")
  else if spec_stop_hit bar position && spec_tp_hit bar position then
    if |bar.open_ - position.stop_loss.getD 0| < |bar.open_ - position.take_profit.getD 0| then
      (position.stop_loss.getD 0, "stop_loss")
    else
      (position.take_profit.getD 0, "take_profit")
  else if spec_stop_hit bar position then (position.stop_loss.getD 0, "stop_loss")
  else if spec_tp_hit bar position then (position.take_profit.getD 0, "take_profit")
  else (bar.close, "unknown")

/-- A bar with a stop level of exactly `0` (Python truthiness treats it as
unset), used to refute claim C1 as literally stated. -/
def c1_cx_bar : Bar :=
  { timestamp := 0, open_ := 5, high := 6, low := -1, close := 4, volume := 0 }

/-- A position whose stop loss is set to `0`, used to refute claim C1 as
literally stated. -/
def c1_cx_position : Position :=
  { symbol := "A", shares := 1, entry_price := 5, entry_time := 0,
    stop_loss := some 0, take_profit := none, strategy := "s" }

/-- Counterexample to claim C1 as stated: with `stopLoss = 0` (which is
"set") and `bar.low = -1 ≤ 0`, the claim's case analysis exits at the stop
level `0` with reason `stop_loss`, but the code's truthiness test
`position.stop_loss and bar.low <= position.stop_loss` treats the level
`0.0` as unset, so no level is hit and the code falls through to
`(bar.close, "unknown")`. -/
theorem claim_C1_counterexample :
    determine_exit_price c1_cx_bar c1_cx_position
        (stop_hit_b c1_cx_bar c1_cx_position) (tp_hit_b c1_cx_bar c1_cx_position)
      ≠ exit_spec c1_cx_bar c1_cx_position := by decide

/-- A bar matching the claim's concrete example: open 92, high 112, low 88. -/
def c1_ex_bar : Bar :=
  { timestamp := 0, open_ := 92, high := 112, low := 88, close := 100, volume := 0 }

/-- A position matching the claim's concrete example: stop 90, target 110. -/
def c1_ex_position : Position :=
  { symbol := "A", shares := 1, entry_price := 100, entry_time := 0,
    stop_loss := some 90, take_profit := some 110, strategy := "s" }

/-- Claim C1 (amended): provided every set stop/target level is nonzero
(the code's truthiness test treats a level of exactly `0` as unset), the
code's exit-price/reason resolution follows exactly the claim's case
precedence: gap through stop at `bar.open` (`stop_loss_gap`); else gap
through target at `bar.open` (`take_profit_gap`); else, when both are hit,
the level closer to `bar.open` wins (stop on strict inequality); else the
hit level with its reason.  In particular, for stop 90 / target 110 and a
bar with open 92, high 112, low 88, the exit is at 90 with reason
`stop_loss`. -/
theorem claim_C1 :
    (∀ (bar : Bar) (position : Position),
      position.stop_loss.getD 1 ≠ 0 → position.take_profit.getD 1 ≠ 0 →
      determine_exit_price bar position (stop_hit_b bar position) (tp_hit_b bar position)
        = exit_spec bar position)
    ∧ determine_exit_price c1_ex_bar c1_ex_position
        (stop_hit_b c1_ex_bar c1_ex_position) (tp_hit_b c1_ex_bar c1_ex_position)
      = (90, "stop_loss") := by
  constructor
  · intro bar position hs ht
    have h1 : stop_hit_b bar position = spec_stop_hit bar position := by
      cases hsl : position.stop_loss with
      | none => simp [stop_hit_b, spec_stop_hit, hsl]
      | some s =>
        rw [hsl] at hs
        simp only [Option.getD_some] at hs
        simp [stop_hit_b, spec_stop_hit, hsl, hs]
    have h2 : tp_hit_b bar position = spec_tp_hit bar position := by
      cases htp : position.take_profit with
      | none => simp [tp_hit_b, spec_tp_hit, htp]
      | some v =>
        rw [htp] at ht
        simp only [Option.getD_some] at ht
        simp [tp_hit_b, spec_tp_hit, htp, ht]
    rw [h1, h2]
    rfl
  · decide

/-- Witness for (the universal part of) C1 at a concrete input with
nonzero levels. -/
theorem claim_C1_witness :
    determine_exit_price c1_ex_bar c1_ex_position
        (stop_hit_b c1_ex_bar c1_ex_position) (tp_hit_b c1_ex_bar c1_ex_position)
      = exit_spec c1_ex_bar c1_ex_position :=
  claim_C1.1 c1_ex_bar c1_ex_position (by decide) (by decide)

/-! ## Claim C3: entry algorithm -/

/-- Claim C3: opening a position computes
`positionValue = availableCapital * positionSizePct / 100` and
`shares = floor(positionValue / bar.close)`; the entry is a no-op whenever
`shares ≤ 0` or `shares * bar.close + commission > availableCapital`; on
acceptance exactly `shares * bar.close + commission` is debited; and the
available capital is still nonnegative after every entry.  (Hypotheses:
capital nonnegative before the entry, positive close, nonnegative sizing
percentage — under these `int()` truncation agrees with `floor`.) -/
theorem claim_C3 (σ : Type) (cfg : BacktestConfig) (st : EState σ)
    (symbol : String) (bar : Bar) (signal : Signal)
    (hcap : 0 ≤ st.available_capital) (hclose : 0 < bar.close)
    (hpct : 0 ≤ cfg.position_size_pct) :
    ((⌊st.available_capital * (cfg.position_size_pct / 100) / bar.close⌋ ≤ 0
        ∨ st.available_capital <
          (⌊st.available_capital * (cfg.position_size_pct / 100) / bar.close⌋ : ℚ) * bar.close
            + cfg.commission_per_trade) →
      open_position cfg st symbol bar signal = st)
    ∧ (0 < ⌊st.available_capital * (cfg.position_size_pct / 100) / bar.close⌋ →
      (⌊st.available_capital * (cfg.position_size_pct / 100) / bar.close⌋ : ℚ) * bar.close
          + cfg.commission_per_trade ≤ st.available_capital →
      (open_position cfg st symbol bar signal).available_capital
        = st.available_capital -
          ((⌊st.available_capital * (cfg.position_size_pct / 100) / bar.close⌋ : ℚ) * bar.close
            + cfg.commission_per_trade))
    ∧ 0 ≤ (open_position cfg st symbol bar signal).available_capital := by
  have hq : 0 ≤ st.available_capital * (cfg.position_size_pct / 100) / bar.close := by
    positivity
  have hshares : pyInt (st.available_capital * (cfg.position_size_pct / 100) / bar.close)
      = ⌊st.available_capital * (cfg.position_size_pct / 100) / bar.close⌋ := by
    simp [pyInt, hq]
  refine ⟨?_, ?_, ?_⟩
  · intro h
    rcases h with h | h
    · simp [open_position, hshares, if_pos h]
    · by_cases h0 : ⌊st.available_capital * (cfg.position_size_pct / 100) / bar.close⌋ ≤ 0
      · simp [open_position, hshares, if_pos h0]
      · simp [open_position, hshares, if_neg h0, if_pos h]
  · intro h1 h2
    have h0 : ¬ ⌊st.available_capital * (cfg.position_size_pct / 100) / bar.close⌋ ≤ 0 := by
      omega
    have h2' : ¬ st.available_capital <
        (⌊st.available_capital * (cfg.position_size_pct / 100) / bar.close⌋ : ℚ) * bar.close
          + cfg.commission_per_trade := not_lt.mpr h2
    simp [open_position, hshares, if_neg h0, if_neg h2']
  · by_cases h0 : ⌊st.available_capital * (cfg.position_size_pct / 100) / bar.close⌋ ≤ 0
    · simpa [open_position, hshares, if_pos h0] using hcap
    · by_cases h2 : st.available_capital <
        (⌊st.available_capital * (cfg.position_size_pct / 100) / bar.close⌋ : ℚ) * bar.close
          + cfg.commission_per_trade
      · simpa [open_position, hshares, if_neg h0, if_pos h2] using hcap
      · have := not_lt.mp h2
        simp only [open_position, hshares, if_neg h0, if_neg h2]
        linarith

/-- Engine state fixture for the C3 witness. -/
def w3_state : EState Unit :=
  { available_capital := 100000, positions := [], trades := [], equity_curve := [],
    strat_state := () }

/-- Bar fixture for the C3 witness. -/
def w3_bar : Bar :=
  { timestamp := 1, open_ := 100, high := 105, low := 95, close := 95, volume := 0 }

/-- Config fixture for the C3 witness (the defaults of `BacktestConfig`). -/
def w3_config : BacktestConfig :=
  { initial_capital := 100000, position_size_pct := 10, max_positions := 5,
    commission_per_trade := 0 }

/-- Signal fixture for the C3 witness. -/
def w3_signal : Signal :=
  { symbol := "AAA", action := Action.buy, strategy := "test",
    entry_price := 95, stop_loss := some 85, take_profit := none,
    strength := 0, reason := "", timestamp := 0 }

/-- Witness for C3 at a concrete input: capital stays nonnegative after the
entry. -/
theorem claim_C3_witness :
    0 ≤ (open_position w3_config w3_state "AAA" w3_bar w3_signal).available_capital :=
  (claim_C3 Unit w3_config w3_state "AAA" w3_bar w3_signal
    (by decide) (by decide) (by decide)).2.2

/-! ## Engine lemmas: the current-prices map and equity-curve bookkeeping -/

lemma foldl_fixed {α β γ : Type} (f : β → α → β) (g : β → γ) :
    ∀ (l : List α) (b : β), (∀ b' a, a ∈ l → g (f b' a) = g b') →
      g (l.foldl f b) = g b := by
  intro l
  induction l with
  | nil => intro b _; rfl
  | cons a l ih =>
    intro b h
    rw [List.foldl_cons, ih _ (fun b' a' ha' => h b' a' (List.mem_cons_of_mem _ ha')),
      h b a (List.mem_cons_self _ _)]

@[simp] lemma close_position_equity_curve {σ : Type} (cfg : BacktestConfig)
    (st : EState σ) (symbol : String) (exit_price : ℚ) (exit_time : ℕ)
    (reason : String) :
    (close_position cfg st symbol exit_price exit_time reason).equity_curve
      = st.equity_curve := by
  rcases hs : sfind st.positions symbol with _ | p <;> simp [close_position, hs]

@[simp] lemma open_position_equity_curve {σ : Type} (cfg : BacktestConfig)
    (st : EState σ) (symbol : String) (bar : Bar) (signal : Signal) :
    (open_position cfg st symbol bar signal).equity_curve = st.equity_curve := by
  unfold open_position
  dsimp only
  split
  · rfl
  · split <;> rfl

@[simp] lemma check_entry_equity_curve {σ : Type} (S : Strategy σ)
    (cfg : BacktestConfig) (st : EState σ) (symbol : String) (bar : Bar)
    (history : List Bar) :
    (check_entry S cfg st symbol bar history).equity_curve = st.equity_curve := by
  unfold check_entry
  split
  · rfl
  · dsimp only
    split
    · split
      · rw [open_position_equity_curve]
      · rfl
    · rfl

@[simp] lemma check_exit_conditions_equity_curve {σ : Type} (S : Strategy σ)
    (cfg : BacktestConfig) (st : EState σ) (symbol : String) (bar : Bar)
    (all_bars : List Bar) :
    (check_exit_conditions S cfg st symbol bar all_bars).equity_curve
      = st.equity_curve := by
  unfold check_exit_conditions
  split
  · rfl
  · dsimp only
    split
    · rw [close_position_equity_curve]
    · split
      · split
        · rw [close_position_equity_curve]
        · rfl
      · rfl

lemma exit_pass_equity_curve {σ : Type} (S : Strategy σ) (cfg : BacktestConfig)
    (map : List (String × List Bar)) (t : ℕ) (st : EState σ)
    (symbols : List String) :
    (exit_pass S cfg map t st symbols).2.equity_curve = st.equity_curve := by
  apply foldl_fixed (exit_pass_step S cfg map t)
    (fun acc => acc.2.equity_curve)
  intro acc s _
  unfold exit_pass_step
  split
  · rfl
  · split
    · rw [check_exit_conditions_equity_curve]
    · rfl

lemma entry_pass_equity_curve {σ : Type} (S : Strategy σ) (cfg : BacktestConfig)
    (map : List (String × List Bar)) (t : ℕ) (st : EState σ)
    (symbols : List String) :
    (entry_pass S cfg map t st symbols).equity_curve = st.equity_curve := by
  apply foldl_fixed (entry_pass_step S cfg map t) (fun b => b.equity_curve)
  intro b s _
  unfold entry_pass_step
  split
  · rfl
  · split
    · rfl
    · split
      · rw [check_entry_equity_curve]
      · rfl

lemma after_passes_equity_curve {σ : Type} (S : Strategy σ)
    (cfg : BacktestConfig) (symbols : List String)
    (map : List (String × List Bar)) (st : EState σ) (t : ℕ) :
    (after_passes S cfg symbols map st t).equity_curve = st.equity_curve := by
  unfold after_passes
  rw [entry_pass_equity_curve, exit_pass_equity_curve]

/-- The value of the `current_prices` dict built by the first pass at
timestamp `t`: one `(symbol, close)` entry per symbol with a bar at `t`,
in `symbols` order. -/
def prices_spec (map : List (String × List Bar)) (t : ℕ)
    (symbols : List String) : List (String × ℚ) :=
  symbols.filterMap
    (fun sym => (get_bar_at_timestamp ((sfind map sym).getD []) t).map
      (fun b => (sym, b.close)))

lemma exit_pass_foldl_prices {σ : Type} (S : Strategy σ) (cfg : BacktestConfig)
    (map : List (String × List Bar)) (t : ℕ) :
    ∀ (symbols : List String) (acc : List (String × ℚ) × EState σ),
      (symbols.foldl (exit_pass_step S cfg map t) acc).1
        = acc.1 ++ prices_spec map t symbols := by
  intro symbols
  induction symbols with
  | nil => intro acc; simp [prices_spec]
  | cons s rest ih =>
    intro acc
    rw [List.foldl_cons, ih]
    simp only [prices_spec, List.filterMap_cons]
    rcases hb : get_bar_at_timestamp ((sfind map s).getD []) t with _ | b
    · simp [exit_pass_step, hb, prices_spec]
    · simp [exit_pass_step, hb, prices_spec]

lemma exit_pass_prices {σ : Type} (S : Strategy σ) (cfg : BacktestConfig)
    (map : List (String × List Bar)) (t : ℕ) (st : EState σ)
    (symbols : List String) :
    (exit_pass S cfg map t st symbols).1 = prices_spec map t symbols := by
  unfold exit_pass
  rw [exit_pass_foldl_prices]
  rfl

lemma sfind_prices_spec_some (map : List (String × List Bar)) (t : ℕ)
    (sym : String) (b : Bar) :
    ∀ (symbols : List String), sym ∈ symbols →
      get_bar_at_timestamp ((sfind map sym).getD []) t = some b →
      sfind (prices_spec map t symbols) sym = some b.close := by
  intro symbols
  induction symbols with
  | nil => intro h; cases h
  | cons s rest ih =>
    intro hmem hbar
    by_cases hss : s = sym
    · subst hss
      simp only [prices_spec, List.filterMap_cons, hbar, Option.map_some']
      simp [sfind]
    · have hmem' : sym ∈ rest :=
        (List.mem_cons.mp hmem).resolve_left (fun h => hss h.symm)
      simp only [prices_spec, List.filterMap_cons]
      rcases hb : get_bar_at_timestamp ((sfind map s).getD []) t with _ | b'
      · simpa [prices_spec] using ih hmem' hbar
      · simp only [Option.map_some']
        rw [sfind, if_neg hss]
        simpa [prices_spec] using ih hmem' hbar

lemma sfind_prices_spec_none (map : List (String × List Bar)) (t : ℕ)
    (sym : String)
    (hbar : get_bar_at_timestamp ((sfind map sym).getD []) t = none) :
    ∀ (symbols : List String), sfind (prices_spec map t symbols) sym = none := by
  intro symbols
  induction symbols with
  | nil => rfl
  | cons s rest ih =>
    by_cases hss : s = sym
    · subst hss
      simp only [prices_spec, List.filterMap_cons, hbar, Option.map_none']
      simpa [prices_spec] using ih
    · simp only [prices_spec, List.filterMap_cons]
      rcases hb : get_bar_at_timestamp ((sfind map s).getD []) t with _ | b'
      · simpa [prices_spec] using ih
      · simp only [Option.map_some']
        rw [sfind, if_neg hss]
        simpa [prices_spec] using ih

/-- The close of the bar of `sym` at timestamp `t`, when there is one. -/
def bar_close_at (map : List (String × List Bar)) (sym : String) (t : ℕ) :
    Option ℚ :=
  (get_bar_at_timestamp ((sfind map sym).getD []) t).map (fun b => b.close)

/-! ## Claim C2: the equity-curve capital-conservation invariant -/

/-- Claim C2: at every processed timestamp `t` of any run (every processed
timestamp is a `process_timestamp` application to the engine state `st`
reached at that point), the equity value appended to the equity curve
equals the available capital at that moment (after both passes) plus the
sum over all open positions of the close of that symbol's bar at `t`
times the position's shares — provided every open position's symbol is in
the traded-symbols list and has a bar at `t` (so that "the close of that
symbol's bar at `t`" is defined). -/
theorem claim_C2 (σ : Type) (S : Strategy σ) (cfg : BacktestConfig)
    (symbols : List String) (map : List (String × List Bar)) (st : EState σ)
    (t : ℕ)
    (hbars : ∀ q ∈ (after_passes S cfg symbols map st t).positions,
      q.2.symbol ∈ symbols ∧ (bar_close_at map q.2.symbol t).isSome) :
    (process_timestamp S cfg symbols map st t).equity_curve
      = st.equity_curve ++
        [(after_passes S cfg symbols map st t).available_capital +
          ((after_passes S cfg symbols map st t).positions.map
            (fun q => (bar_close_at map q.2.symbol t).getD 0 * (q.2.shares : ℚ))).sum] := by
  have hproc : (process_timestamp S cfg symbols map st t).equity_curve
      = (after_passes S cfg symbols map st t).equity_curve ++
        [calculate_equity (after_passes S cfg symbols map st t)
          (exit_pass S cfg map t st symbols).1] := rfl
  rw [hproc, after_passes_equity_curve]
  congr 1
  unfold calculate_equity
  congr 1
  have hmap : List.map
      (fun q => (sfind (exit_pass S cfg map t st symbols).1 q.2.symbol).getD
        q.2.entry_price * (q.2.shares : ℚ))
      (after_passes S cfg symbols map st t).positions
      = List.map
        (fun q => (bar_close_at map q.2.symbol t).getD 0 * (q.2.shares : ℚ))
        (after_passes S cfg symbols map st t).positions := by
    apply List.map_congr_left
    intro q hq
    obtain ⟨hmem, hsome⟩ := hbars q hq
    obtain ⟨c, hc⟩ := Option.isSome_iff_exists.mp hsome
    obtain ⟨b, hb, rfl⟩ := Option.map_eq_some'.mp hc
    rw [exit_pass_prices, sfind_prices_spec_some map t q.2.symbol b symbols hmem hb,
      bar_close_at, hb]
    rfl
  rw [hmap]

/-- Strategy fixture for the C2/C9 witnesses: never signals. -/
def w2_strategy : Strategy Unit :=
  { name := "idle", init := (), on_bar := fun s _ _ _ _ => (s, none) }

/-- Position fixture for the C2/C9 witnesses. -/
def w2_position : Position :=
  { symbol := "A", shares := 10, entry_price := 50, entry_time := 0,
    stop_loss := none, take_profit := none, strategy := "idle" }

/-- State fixture for the C2/C9 witnesses: one open position, capital 1000. -/
def w2_state : EState Unit :=
  { available_capital := 1000, positions := [("A", w2_position)], trades := [],
    equity_curve := [], strat_state := () }

/-- Bars fixture for the C2/C9 witnesses: symbol `A` has one bar at
timestamp 5 with close 60. -/
def w2_bars : List (String × List Bar) :=
  [("A", [{ timestamp := 5, open_ := 55, high := 61, low := 54, close := 60,
            volume := 0 }])]

/-- Witness for C2 at a concrete input: the recorded equity is
`1000 + 60 * 10 = 1600`. -/
theorem claim_C2_witness :
    (process_timestamp w2_strategy w3_config ["A"] w2_bars w2_state 5).equity_curve
      = [1600] :=
  (claim_C2 Unit w2_strategy w3_config ["A"] w2_bars w2_state 5
    (by decide)).trans (by decide)

/-! ## Claim C9: entry-price fallback for symbols without a bar at `t` -/

/-- Claim C9: the equity recorded at a timestamp values each open position
at `current_prices.get(p.symbol, p.entry_price)` — and a symbol with no
bar at that exact timestamp is absent from the current-prices map, so such
a position is valued at its entry price (not at the symbol's last known
close). -/
theorem claim_C9 (σ : Type) (S : Strategy σ) (cfg : BacktestConfig)
    (symbols : List String) (map : List (String × List Bar)) (st : EState σ)
    (t : ℕ) :
    ((process_timestamp S cfg symbols map st t).equity_curve
      = st.equity_curve ++
        [(after_passes S cfg symbols map st t).available_capital +
          ((after_passes S cfg symbols map st t).positions.map
            (fun q => ((sfind (exit_pass S cfg map t st symbols).1 q.2.symbol).getD
              q.2.entry_price) * (q.2.shares : ℚ))).sum])
    ∧ (∀ sym : String, get_bar_at_timestamp ((sfind map sym).getD []) t = none →
        sfind (exit_pass S cfg map t st symbols).1 sym = none)
    ∧ (∀ q ∈ (after_passes S cfg symbols map st t).positions,
        get_bar_at_timestamp ((sfind map q.2.symbol).getD []) t = none →
        ((sfind (exit_pass S cfg map t st symbols).1 q.2.symbol).getD
          q.2.entry_price) * (q.2.shares : ℚ)
          = q.2.entry_price * (q.2.shares : ℚ)) := by
  refine ⟨?_, ?_, ?_⟩
  · have hproc : (process_timestamp S cfg symbols map st t).equity_curve
        = (after_passes S cfg symbols map st t).equity_curve ++
          [calculate_equity (after_passes S cfg symbols map st t)
            (exit_pass S cfg map t st symbols).1] := rfl
    rw [hproc, after_passes_equity_curve]
    rfl
  · intro sym hnone
    rw [exit_pass_prices]
    exact sfind_prices_spec_none map t sym hnone symbols
  · intro q _ hnone
    rw [exit_pass_prices, sfind_prices_spec_none map t q.2.symbol hnone symbols]
    rfl

/-- Witness for C9 at a concrete input: a symbol with no bar at the
timestamp is absent from the current-prices map, and the recorded equity
values the open position (whose symbol has a bar) at that bar's close. -/
theorem claim_C9_witness :
    sfind (exit_pass w2_strategy w3_config w2_bars 5 w2_state ["A"]).1 "ZZZ" = none :=
  (claim_C9 Unit w2_strategy w3_config ["A"] w2_bars w2_state 5).2.1 "ZZZ" (by decide)

/-! ## Claim C4: position-table invariants -/

/-- The open-position-table invariant: at most `max_positions` entries and
at most one entry per symbol. -/
def PosInv (cfg : BacktestConfig) (ps : List (String × Position)) : Prop :=
  (ps.length : ℤ) ≤ cfg.max_positions ∧ (ps.map (fun q => q.1)).Nodup

lemma foldl_invariant {α β : Type} (f : β → α → β) (P : β → Prop) :
    ∀ (l : List α) (b : β), P b → (∀ b' a, a ∈ l → P b' → P (f b' a)) →
      P (l.foldl f b) := by
  intro l
  induction l with
  | nil => intro b hb _; exact hb
  | cons a l ih =>
    intro b hb h
    exact ih _ (h b a (List.mem_cons_self _ _) hb)
      (fun b' a' ha' hb' => h b' a' (List.mem_cons_of_mem _ ha') hb')

lemma close_position_positions_sublist {σ : Type} (cfg : BacktestConfig)
    (st : EState σ) (symbol : String) (exit_price : ℚ) (exit_time : ℕ)
    (reason : String) :
    (close_position cfg st symbol exit_price exit_time reason).positions.Sublist
      st.positions := by
  rcases hs : sfind st.positions symbol with _ | pos
  · simp [close_position, hs]
  · simp only [close_position, hs]
    exact List.eraseP_sublist _

lemma check_exit_conditions_positions_sublist {σ : Type} (S : Strategy σ)
    (cfg : BacktestConfig) (st : EState σ) (symbol : String) (bar : Bar)
    (all_bars : List Bar) :
    (check_exit_conditions S cfg st symbol bar all_bars).positions.Sublist
      st.positions := by
  unfold check_exit_conditions
  split
  · exact List.Sublist.refl _
  · dsimp only
    split
    · exact close_position_positions_sublist cfg st symbol _ _ _
    · split
      · split
        · exact close_position_positions_sublist cfg _ symbol _ _ _
        · exact List.Sublist.refl _
      · exact List.Sublist.refl _

lemma exit_pass_positions_sublist {σ : Type} (S : Strategy σ)
    (cfg : BacktestConfig) (map : List (String × List Bar)) (t : ℕ)
    (st : EState σ) (symbols : List String) :
    (exit_pass S cfg map t st symbols).2.positions.Sublist st.positions := by
  apply foldl_invariant (exit_pass_step S cfg map t)
    (fun acc => acc.2.positions.Sublist st.positions)
  · exact List.Sublist.refl _
  · intro acc s _ hacc
    unfold exit_pass_step
    split
    · exact hacc
    · split
      · exact (check_exit_conditions_positions_sublist S cfg acc.2 s _ _).trans hacc
      · exact hacc

lemma posinv_of_sublist {cfg : BacktestConfig}
    {ps ps' : List (String × Position)} (hsub : ps'.Sublist ps)
    (hinv : PosInv cfg ps) : PosInv cfg ps' := by
  refine ⟨le_trans ?_ hinv.1, hinv.2.sublist (hsub.map _)⟩
  exact_mod_cast Int.ofNat_le.mpr hsub.length_le

lemma sfind_eq_none_not_mem {α : Type} :
    ∀ (l : List (String × α)) (k : String), sfind l k = none →
      k ∉ l.map (fun q => q.1) := by
  intro l
  induction l with
  | nil => intro k _ h; simp at h
  | cons q rest ih =>
    intro k hfind hmem
    rcases List.mem_cons.mp hmem with h | h
    · rw [sfind, if_pos h.symm] at hfind
      cases hfind
    · by_cases hqk : q.1 = k
      · rw [sfind, if_pos hqk] at hfind
        cases hfind
      · rw [sfind, if_neg hqk] at hfind
        exact ih k hfind h

lemma open_position_posinv {σ : Type} {cfg : BacktestConfig} {st : EState σ}
    {symbol : String} (bar : Bar) (signal : Signal)
    (hlt : ¬ cfg.max_positions ≤ (st.positions.length : ℤ))
    (hns : sfind st.positions symbol = none)
    (hinv : PosInv cfg st.positions) :
    PosInv cfg (open_position cfg st symbol bar signal).positions := by
  unfold open_position
  dsimp only
  split
  · exact hinv
  · split
    · exact hinv
    · constructor
      · rw [List.length_append]
        simp only [List.length_singleton]
        push_cast
        omega
      · rw [List.map_append]
        refine List.Nodup.append hinv.2 (List.nodup_singleton _) ?_
        simp only [List.map_cons, List.map_nil, List.disjoint_singleton]
        exact sfind_eq_none_not_mem st.positions symbol hns

lemma check_entry_posinv {σ : Type} (S : Strategy σ) {cfg : BacktestConfig}
    {st : EState σ} {symbol : String} (bar : Bar) (history : List Bar)
    (hns : sfind st.positions symbol = none)
    (hinv : PosInv cfg st.positions) :
    PosInv cfg (check_entry S cfg st symbol bar history).positions := by
  unfold check_entry
  split
  · exact hinv
  · dsimp only
    split
    · split
      · exact open_position_posinv bar _ (by assumption) hns hinv
      · exact hinv
    · exact hinv

lemma entry_pass_step_posinv {σ : Type} (S : Strategy σ) {cfg : BacktestConfig}
    (map : List (String × List Bar)) (t : ℕ) {st : EState σ} (symbol : String)
    (hinv : PosInv cfg st.positions) :
    PosInv cfg (entry_pass_step S cfg map t st symbol).positions := by
  unfold entry_pass_step
  split
  · exact hinv
  · split
    · exact hinv
    · split
      · refine check_entry_posinv S _ _ ?_ hinv
        exact Option.not_isSome_iff_eq_none.mp (by assumption)
      · exact hinv

lemma entry_pass_posinv {σ : Type} (S : Strategy σ) {cfg : BacktestConfig}
    (map : List (String × List Bar)) (t : ℕ) {st : EState σ}
    (symbols : List String) (hinv : PosInv cfg st.positions) :
    PosInv cfg (entry_pass S cfg map t st symbols).positions := by
  apply foldl_invariant (entry_pass_step S cfg map t)
    (fun b => PosInv cfg b.positions) symbols st hinv
  intro b s _ hb
  exact entry_pass_step_posinv S map t s hb

lemma process_timestamp_posinv {σ : Type} (S : Strategy σ)
    {cfg : BacktestConfig} (symbols : List String)
    (map : List (String × List Bar)) {st : EState σ} (t : ℕ)
    (hinv : PosInv cfg st.positions) :
    PosInv cfg (process_timestamp S cfg symbols map st t).positions := by
  have h1 : PosInv cfg (exit_pass S cfg map t st symbols).2.positions :=
    posinv_of_sublist (exit_pass_positions_sublist S cfg map t st symbols) hinv
  exact entry_pass_posinv S map t symbols h1

lemma run_timestamps_posinv {σ : Type} (S : Strategy σ)
    {cfg : BacktestConfig} (symbols : List String)
    (map : List (String × List Bar)) {st : EState σ} (ts : List ℕ)
    (hinv : PosInv cfg st.positions) :
    PosInv cfg (run_timestamps S cfg symbols map st ts).positions := by
  apply foldl_invariant (process_timestamp S cfg symbols map)
    (fun b => PosInv cfg b.positions) ts st hinv
  intro b t _ hb
  exact process_timestamp_posinv S symbols map t hb

lemma close_remaining_aux_posinv {σ : Type} {cfg : BacktestConfig}
    (map : List (String × List Bar)) :
    ∀ (keys : List String) (st : EState σ), PosInv cfg st.positions →
      PosInv cfg (close_remaining_aux cfg map keys st).positions := by
  intro keys
  induction keys with
  | nil => intro st h; exact h
  | cons k ks ih =>
    intro st h
    rw [close_remaining_aux]
    apply ih
    rcases hm : sfind map k with _ | bars
    · simp only [hm]
      exact h
    · simp only [hm]
      rcases hl : bars.getLast? with _ | lb
      · simp only [hl]
        exact h
      · simp only [hl]
        exact posinv_of_sublist (close_position_positions_sublist cfg st k _ _ _) h

/-- Claim C4: throughout any run the open-position table satisfies
`len(openPositions) ≤ maxPositions` and has at most one open position per
symbol (the key list is duplicate-free): this holds after each processed
timestamp and for the final state.  Moreover the count limit is checked
before any entry is attempted (`check_entry` is a complete no-op when the
table is full, without even consulting the strategy), and the entry pass
skips any symbol that already has an open position. -/
theorem claim_C4 (σ : Type) (S : Strategy σ) (cfg : BacktestConfig)
    (sqrtFn : ℚ → ℚ) (st0 : EState σ) (symbols : List String)
    (map : List (String × List Bar)) (hmax : 0 ≤ cfg.max_positions) :
    (∀ i : ℕ, PosInv cfg (run_timestamps S cfg symbols map (reset_state S cfg)
      ((sorted_timestamps map).take i)).positions)
    ∧ PosInv cfg (engine_run S cfg sqrtFn st0 symbols map).1.positions
    ∧ (∀ (st : EState σ) (symbol : String) (bar : Bar) (history : List Bar),
        cfg.max_positions ≤ (st.positions.length : ℤ) →
        check_entry S cfg st symbol bar history = st)
    ∧ (∀ (t : ℕ) (st : EState σ) (symbol : String),
        (sfind st.positions symbol).isSome →
        entry_pass_step S cfg map t st symbol = st) := by
  have hreset : PosInv cfg (reset_state S cfg : EState σ).positions := by
    exact ⟨by simpa [reset_state] using hmax, by simp [reset_state]⟩
  refine ⟨?_, ?_, ?_, ?_⟩
  · intro i
    exact run_timestamps_posinv S symbols map _ hreset
  · exact close_remaining_aux_posinv map _ _
      (run_timestamps_posinv S symbols map _ hreset)
  · intro st symbol bar history h
    unfold check_entry
    rw [if_pos h]
  · intro t st symbol h
    unfold entry_pass_step
    rcases hb : get_bar_at_timestamp ((sfind map symbol).getD []) t with _ | bar
    · rfl
    · simp [h]

/-- Witness for C4: the invariant holds for the final state of the
three-bar scenario run. -/
theorem claim_C4_witness :
    PosInv w3_config
      (engine_run w2_strategy w3_config (fun q => q) w2_state ["A"] w2_bars).1.positions :=
  (claim_C4 Unit w2_strategy w3_config (fun q => q) w2_state ["A"] w2_bars
    (by decide)).2.1

/-! ## Claim C5: end-of-test force close -/

/-- Every open position's symbol has a nonempty bar list in
`bars_by_symbol` (true throughout a run, since positions are only opened
from a bar found in that map). -/
def BarsInv (map : List (String × List Bar)) (ps : List (String × Position)) : Prop :=
  ∀ q ∈ ps, ∃ bars, sfind map q.1 = some bars ∧ bars ≠ []

lemma barsinv_of_sublist {map : List (String × List Bar)}
    {ps ps' : List (String × Position)} (hsub : ps'.Sublist ps)
    (hinv : BarsInv map ps) : BarsInv map ps' :=
  fun q hq => hinv q (hsub.subset hq)

lemma get_bar_at_timestamp_mem :
    ∀ (bars : List Bar) (t : ℕ) (b : Bar),
      get_bar_at_timestamp bars t = some b → b ∈ bars := by
  intro bars
  induction bars with
  | nil => intro t b h; cases h
  | cons b0 rest ih =>
    intro t b h
    rw [get_bar_at_timestamp] at h
    by_cases h0 : b0.timestamp = t
    · rw [if_pos h0] at h
      cases h
      exact List.mem_cons_self _ _
    · rw [if_neg h0] at h
      exact List.mem_cons_of_mem _ (ih t b h)

lemma bar_symbol_has_bars {map : List (String × List Bar)} {symbol : String}
    {t : ℕ} {bar : Bar}
    (hbar : get_bar_at_timestamp ((sfind map symbol).getD []) t = some bar) :
    ∃ bars, sfind map symbol = some bars ∧ bars ≠ [] := by
  rcases hm : sfind map symbol with _ | bars
  · rw [hm] at hbar
    cases hbar
  · rw [hm] at hbar
    exact ⟨bars, rfl, List.ne_nil_of_mem (get_bar_at_timestamp_mem _ t bar hbar)⟩

lemma open_position_barsinv {σ : Type} {cfg : BacktestConfig} {st : EState σ}
    {map : List (String × List Bar)} {symbol : String} (bar : Bar)
    (signal : Signal)
    (hsym : ∃ bars, sfind map symbol = some bars ∧ bars ≠ [])
    (hinv : BarsInv map st.positions) :
    BarsInv map (open_position cfg st symbol bar signal).positions := by
  unfold open_position
  dsimp only
  split
  · exact hinv
  · split
    · exact hinv
    · intro q hq
      rcases List.mem_append.mp hq with h | h
      · exact hinv q h
      · rcases List.mem_singleton.mp h with rfl
        exact hsym

lemma check_entry_barsinv {σ : Type} (S : Strategy σ) {cfg : BacktestConfig}
    {st : EState σ} {map : List (String × List Bar)} {symbol : String}
    (bar : Bar) (history : List Bar)
    (hsym : ∃ bars, sfind map symbol = some bars ∧ bars ≠ [])
    (hinv : BarsInv map st.positions) :
    BarsInv map (check_entry S cfg st symbol bar history).positions := by
  unfold check_entry
  split
  · exact hinv
  · dsimp only
    split
    · split
      · exact open_position_barsinv bar _ hsym hinv
      · exact hinv
    · exact hinv

lemma entry_pass_step_barsinv {σ : Type} (S : Strategy σ)
    {cfg : BacktestConfig} {map : List (String × List Bar)} (t : ℕ)
    {st : EState σ} (symbol : String) (hinv : BarsInv map st.positions) :
    BarsInv map (entry_pass_step S cfg map t st symbol).positions := by
  unfold entry_pass_step
  split
  · exact hinv
  · split
    · exact hinv
    · split
      · exact check_entry_barsinv S _ _ (bar_symbol_has_bars (by assumption)) hinv
      · exact hinv

lemma process_timestamp_barsinv {σ : Type} (S : Strategy σ)
    {cfg : BacktestConfig} (symbols : List String)
    {map : List (String × List Bar)} {st : EState σ} (t : ℕ)
    (hinv : BarsInv map st.positions) :
    BarsInv map (process_timestamp S cfg symbols map st t).positions := by
  have h1 : BarsInv map (exit_pass S cfg map t st symbols).2.positions :=
    barsinv_of_sublist (exit_pass_positions_sublist S cfg map t st symbols) hinv
  apply foldl_invariant (entry_pass_step S cfg map t)
    (fun b => BarsInv map b.positions) symbols _ h1
  intro b s _ hb
  exact entry_pass_step_barsinv S t s hb

lemma run_timestamps_barsinv {σ : Type} (S : Strategy σ)
    {cfg : BacktestConfig} (symbols : List String)
    {map : List (String × List Bar)} {st : EState σ} (ts : List ℕ)
    (hinv : BarsInv map st.positions) :
    BarsInv map (run_timestamps S cfg symbols map st ts).positions := by
  apply foldl_invariant (process_timestamp S cfg symbols map)
    (fun b => BarsInv map b.positions) ts st hinv
  intro b t _ hb
  exact process_timestamp_barsinv S symbols t hb

/-- The `TradeResult` produced when the final loop of `run` force-closes
the still-open position `q`: exit at the close of that symbol's final bar,
exit time that bar's timestamp, reason `end_of_test`, and
`pnl = (exitPrice - entryPrice) * shares - commission`. -/
def end_trade (cfg : BacktestConfig) (map : List (String × List Bar))
    (q : String × Position) : TradeResult :=
  match (sfind map q.1).bind List.getLast? with
  | some last_bar =>
    { symbol := q.1
      strategy := q.2.strategy
      entry_price := q.2.entry_price
      entry_time := q.2.entry_time
      exit_price := last_bar.close
      exit_time := last_bar.timestamp
      shares := q.2.shares
      pnl := (last_bar.close - q.2.entry_price) * (q.2.shares : ℚ) -
        cfg.commission_per_trade
      pnl_pct := ((last_bar.close - q.2.entry_price) / q.2.entry_price) * 100
      reason := "end_of_test" }
  | none =>
    { symbol := q.1, strategy := q.2.strategy, entry_price := q.2.entry_price,
      entry_time := q.2.entry_time, exit_price := 0, exit_time := 0,
      shares := q.2.shares, pnl := 0, pnl_pct := 0, reason := "unclosed" }

lemma close_remaining_aux_spec {σ : Type} (cfg : BacktestConfig)
    (map : List (String × List Bar)) :
    ∀ (ps : List (String × Position)) (st : EState σ), st.positions = ps →
      BarsInv map ps →
      (close_remaining_aux cfg map (ps.map (fun q => q.1)) st).positions = []
      ∧ (close_remaining_aux cfg map (ps.map (fun q => q.1)) st).trades
        = st.trades ++ ps.map (end_trade cfg map) := by
  intro ps
  induction ps with
  | nil =>
    intro st hps _
    refine ⟨hps, by simp [close_remaining_aux]⟩
  | cons q rest ih =>
    intro st hps hinv
    obtain ⟨bars, hm, hne⟩ := hinv q (List.mem_cons_self _ _)
    obtain ⟨lb, hlb⟩ := Option.ne_none_iff_exists'.mp
      (mt List.getLast?_eq_none_iff.mp hne)
    have hfind : sfind st.positions q.1 = some q.2 := by
      rw [hps, sfind, if_pos rfl]
    have hclose : close_position cfg st q.1 lb.close lb.timestamp "end_of_test"
        = { st with
            available_capital := st.available_capital +
              (lb.close * (q.2.shares : ℚ) - cfg.commission_per_trade)
            trades := st.trades ++ [end_trade cfg map q]
            positions := st.positions.eraseP (fun p => p.1 = q.1) } := by
      rw [close_position.eq_def, hfind]
      simp only [end_trade, hm, Option.some_bind, hlb]
    have herase : st.positions.eraseP (fun p => p.1 = q.1) = rest := by
      rw [hps]
      rw [List.eraseP_cons_of_pos]
      simp
    rw [List.map_cons, close_remaining_aux]
    simp only [hm, hlb, hclose, herase]
    have hrest := ih
      { st with
        available_capital := st.available_capital +
          (lb.close * (q.2.shares : ℚ) - cfg.commission_per_trade)
        trades := st.trades ++ [end_trade cfg map q]
        positions := rest } rfl
      (fun p hp => hinv p (List.mem_cons_of_mem _ hp))
    refine ⟨hrest.1, ?_⟩
    rw [hrest.2]
    simp [List.append_assoc]

/-- The strategy of the §8 end-to-end scenario: buys (at the bar close)
whenever no position is open, with stop loss 85 and no take profit. -/
def scn_strategy : Strategy Unit :=
  { name := "test"
    init := ()
    on_bar := fun s _ _ _ position_open =>
      if position_open then (s, none)
      else (s, some { symbol := "AAA", action := Action.buy, strategy := "test",
                      entry_price := 95, stop_loss := some 85, take_profit := none,
                      strength := 0, reason := "", timestamp := 0 }) }

/-- The three bars of the §8 scenario. -/
def scn_bars : List (String × List Bar) :=
  [("AAA",
    [{ timestamp := 1, open_ := 100, high := 105, low := 95, close := 95, volume := 0 },
     { timestamp := 2, open_ := 95, high := 96, low := 90, close := 90, volume := 0 },
     { timestamp := 3, open_ := 90, high := 92, low := 88, close := 88, volume := 0 }])]

/-- An arbitrary pre-run engine state for the scenario run. -/
def scn_state0 : EState Unit :=
  { available_capital := 0, positions := [], trades := [], equity_curve := [],
    strat_state := () }

/-- Claim C5: after the last timestamp has been processed, every position
still open is force-closed at the close of its symbol's final bar with
exit reason `end_of_test` and `pnl = (exitPrice − entryPrice) × shares −
commission` (see `end_trade`): the final position table is empty and the
force-close trades are appended in table order.  In the §8 three-bar
scenario (entry at 95 with stop 85, third bar close 88, low 88) the
single trade closes at 88 with reason `end_of_test` and
`pnl = (88 − 95) × 105 = −735`. -/
theorem claim_C5 :
    (∀ (σ : Type) (S : Strategy σ) (cfg : BacktestConfig) (sqrtFn : ℚ → ℚ)
        (st0 : EState σ) (symbols : List String)
        (map : List (String × List Bar)),
      (engine_run S cfg sqrtFn st0 symbols map).1.positions = []
      ∧ (engine_run S cfg sqrtFn st0 symbols map).2.trades
        = (run_timestamps S cfg symbols map (reset_state S cfg)
            (sorted_timestamps map)).trades
          ++ (run_timestamps S cfg symbols map (reset_state S cfg)
            (sorted_timestamps map)).positions.map (end_trade cfg map))
    ∧ (engine_run scn_strategy w3_config (fun q => q) scn_state0 ["AAA"] scn_bars).2.trades
      = [{ symbol := "AAA", strategy := "test", entry_price := 95, entry_time := 1,
           exit_price := 88, exit_time := 3, shares := 105, pnl := -735,
           pnl_pct := -140/19, reason := "end_of_test" }] := by
  constructor
  · intro σ S cfg sqrtFn st0 symbols map
    have hinv : BarsInv map (run_timestamps S cfg symbols map (reset_state S cfg)
        (sorted_timestamps map)).positions := by
      apply run_timestamps_barsinv
      intro q hq
      simp [reset_state] at hq
    have hspec := close_remaining_aux_spec cfg map
      (run_timestamps S cfg symbols map (reset_state S cfg)
        (sorted_timestamps map)).positions
      (run_timestamps S cfg symbols map (reset_state S cfg)
        (sorted_timestamps map)) rfl hinv
    exact ⟨hspec.1, hspec.2⟩
  · decide

/-! ## Claim C8: determinism of `run` -/

/-- Claim C8: `run` is deterministic — it begins with `self.reset()`,
which restores the capital, clears the position table, trade list and
equity curve, and resets the strategy's per-symbol state, so the
`BacktestResult` (trades in order, equity curve, metrics) depends only on
the inputs: two runs from any two prior engine states produce identical
results.  (The embedding is a pure function of the inputs because the
source run path consumes no randomness and no wall clock: the only
`datetime.now()` default, `Signal.timestamp`, is never read by the
engine.) -/
theorem claim_C8 (σ : Type) (S : Strategy σ) (cfg : BacktestConfig)
    (sqrtFn : ℚ → ℚ) (st0 st0' : EState σ) (symbols : List String)
    (map : List (String × List Bar)) :
    (engine_run S cfg sqrtFn st0 symbols map).2
      = (engine_run S cfg sqrtFn st0' symbols map).2 := rfl

end TradingBot
